import Mathlib

/-!
Verification of the metrics engine of `stock_analysis.py` (class `StockAnalyzer`).

Shallow embedding conventions:
* A price series is a `List ℚ` of close prices in chronological order
  (Python floats are modelled as exact rationals).
* A pandas column that may contain NaN is a `List (Option ℚ)`; `none` models NaN.
* pandas reductions (`std`, `mean`, `max`, `min`) skip NaN entries (skipna=True),
  and `std` uses the sample (ddof=1) denominator; they return NaN when there is
  no data (for `std`: fewer than two data points).
* `pct_change` puts NaN at index 0; `cumprod` (skipna=True) skips NaN entries in
  the accumulation but leaves NaN at the positions where the input is NaN.
* Since a square root does not stay inside ℚ, the summary field `volatility_sq`
  stores the square of the value the source stores (the sample variance instead
  of the sample standard deviation); the square root is strictly monotone on
  nonnegative values, so definedness and all comparisons between volatilities
  are preserved by this encoding.
-/

/-- One step of pandas `Series.pct_change() * 100`, carrying the previous close.
`data['Daily_Return'] = data['Close'].pct_change() * 100` (line 64). -/
def pctChangeGo (prev : ℚ) : List ℚ → List (Option ℚ)
  | [] => []
  | x :: xs => some ((x - prev) / prev * 100) :: pctChangeGo x xs

/-- `data['Close'].pct_change() * 100`: NaN at index 0, then the percentage
change of each close versus the previous close. -/
def pctChange : List ℚ → List (Option ℚ)
  | [] => []
  | c :: rest => none :: pctChangeGo c rest

/-- pandas `Series.cumprod()` with skipna=True: NaN entries are skipped in the
running product but remain NaN in the output. -/
def cumprodGo (acc : ℚ) : List (Option ℚ) → List (Option ℚ)
  | [] => []
  | none :: xs => none :: cumprodGo acc xs
  | some x :: xs => some (acc * x) :: cumprodGo (acc * x) xs

/-- `Series.cumprod()` starting from an empty running product. -/
def cumprodSkipna (xs : List (Option ℚ)) : List (Option ℚ) :=
  cumprodGo 1 xs

/-- `1 + data['Daily_Return'] / 100` (NaN propagates through `1 + _ / 100`). -/
def growthFactors (xs : List (Option ℚ)) : List (Option ℚ) :=
  xs.map (Option.map (fun r => 1 + r / 100))

/-- `data['Cumulative_Return'] = (1 + data['Daily_Return'] / 100).cumprod() - 1`
(line 67).  Note the source keeps this column as a growth fraction; it is NOT
multiplied by 100 here. -/
def cumulativeReturn (closes : List ℚ) : List (Option ℚ) :=
  (cumprodSkipna (growthFactors (pctChange closes))).map (Option.map (fun p => p - 1))

/-- `data['Close'].rolling(window=w).mean()` (lines 70-71): entry `i` is the
arithmetic mean of the last `w` closes once `w` closes have been observed
(`min_periods` defaults to the window size), NaN before that. -/
def rollingMean (w : ℕ) (closes : List ℚ) : List (Option ℚ) :=
  (List.range closes.length).map (fun i =>
    if w ≤ i + 1 then some (((closes.drop (i + 1 - w)).take w).sum / (w : ℚ)) else none)

/-- The values of a pandas column that are not NaN, in order. -/
def definedVals (xs : List (Option ℚ)) : List ℚ :=
  xs.filterMap id

/-- pandas `Series.mean()` with skipna: NaN when no value is defined. -/
def seriesMean (xs : List (Option ℚ)) : Option ℚ :=
  if definedVals xs = [] then none
  else some ((definedVals xs).sum / ((definedVals xs).length : ℚ))

/-- The square of pandas `Series.std()` (skipna, ddof=1): the sample variance of
the defined values, NaN when fewer than two values are defined. -/
def seriesVarSq (xs : List (Option ℚ)) : Option ℚ :=
  if (definedVals xs).length < 2 then none
  else
    some (((definedVals xs).map
      (fun x => (x - (definedVals xs).sum / ((definedVals xs).length : ℚ)) ^ 2)).sum /
        (((definedVals xs).length : ℚ) - 1))

/-- pandas `Series.max()` with skipna: NaN when no value is defined. -/
def seriesMax (xs : List (Option ℚ)) : Option ℚ :=
  match definedVals xs with
  | [] => none
  | v :: vs => some (vs.foldl max v)

/-- pandas `Series.min()` with skipna: NaN when no value is defined. -/
def seriesMin (xs : List (Option ℚ)) : Option ℚ :=
  match definedVals xs with
  | [] => none
  | v :: vs => some (vs.foldl min v)

/-- The per-ticker record stored in `analysis_results` (lines 77-85).
`volatility_sq` holds the square of the stored `volatility` (see module
comment); every other field is the stored value itself. -/
structure SummaryMetrics where
  total_return : Option ℚ
  volatility_sq : Option ℚ
  avg_daily_return : Option ℚ
  best_day : Option ℚ
  worst_day : Option ℚ
  current_price : ℚ
  start_price : ℚ
deriving DecidableEq

/-- The body of `calculate_metrics` for one ticker (lines 62-85): the summary
record built from the daily-return and cumulative-return columns.  The source
is only ever called on non-empty series (`fetch_data` stores a series only `if
not data.empty`); an empty series yields no record. -/
def calculateMetrics (closes : List ℚ) : Option SummaryMetrics :=
  match closes with
  | [] => none
  | c0 :: rest =>
    some
      { total_return := ((cumulativeReturn (c0 :: rest)).getLastD none).map (fun v => v * 100)
        volatility_sq := seriesVarSq (pctChange (c0 :: rest))
        avg_daily_return := seriesMean (pctChange (c0 :: rest))
        best_day := seriesMax (pctChange (c0 :: rest))
        worst_day := seriesMin (pctChange (c0 :: rest))
        current_price := (c0 :: rest).getLastD 0
        start_price := c0 }

/-- Tickers are identified by an index; only equality matters for the model. -/
abbrev Ticker := ℕ

/-- `fetch_data` (lines 41-53): `yf.download` either raises (modelled as
`none`) or returns a series; the ticker is stored only when the series is
non-empty (`if not data.empty`, lines 46-47). -/
def fetchData (download : Ticker → Option (List ℚ)) (tickers : List Ticker) :
    List (Ticker × List ℚ) :=
  tickers.filterMap (fun t =>
    match download t with
    | some (c :: rest) => some (t, c :: rest)
    | _ => none)

/-- `calculate_metrics` over the whole store (line 62): one summary record per
stored ticker, in store order. -/
def analysisResults (store : List (Ticker × List ℚ)) : List (Ticker × SummaryMetrics) :=
  store.filterMap (fun p => (calculateMetrics p.2).map (fun s => (p.1, s)))

/-- One step of Python `max(items, key=f)` over float keys: the current best is
replaced only when the new key compares strictly greater; NaN (`none`)
comparisons are false, so a NaN key never replaces and is never replaced. -/
def pyMaxStep {α : Type} (key : α → Option ℚ) (acc : Option α) (x : α) : Option α :=
  match acc with
  | none => some x
  | some a =>
    match key a, key x with
    | some ka, some kx => if ka < kx then some x else some a
    | _, _ => some a

/-- Python `max(items, key=f)` (first maximal element wins ties). -/
def pyMaxBy {α : Type} (key : α → Option ℚ) (l : List α) : Option α :=
  l.foldl (pyMaxStep key) none

/-- One step of Python `min(items, key=f)`: replace only on strictly smaller. -/
def pyMinStep {α : Type} (key : α → Option ℚ) (acc : Option α) (x : α) : Option α :=
  match acc with
  | none => some x
  | some a =>
    match key a, key x with
    | some ka, some kx => if kx < ka then some x else some a
    | _, _ => some a

/-- Python `min(items, key=f)` (first minimal element wins ties). -/
def pyMinBy {α : Type} (key : α → Option ℚ) (l : List α) : Option α :=
  l.foldl (pyMinStep key) none

/-- `max(self.analysis_results.items(), key=lambda x: x[1]['total_return'])`
(lines 287-288). -/
def bestPerformer (results : List (Ticker × SummaryMetrics)) :
    Option (Ticker × SummaryMetrics) :=
  pyMaxBy (fun p => p.2.total_return) results

/-- `min(self.analysis_results.items(), key=lambda x: x[1]['total_return'])`
(lines 289-290). -/
def worstPerformer (results : List (Ticker × SummaryMetrics)) :
    Option (Ticker × SummaryMetrics) :=
  pyMinBy (fun p => p.2.total_return) results

/-- `max(self.analysis_results.items(), key=lambda x: x[1]['volatility'])`
(lines 291-292); comparing squared volatilities selects the same ticker since
squaring is strictly monotone on the nonnegative stored values. -/
def mostVolatile (results : List (Ticker × SummaryMetrics)) :
    Option (Ticker × SummaryMetrics) :=
  pyMaxBy (fun p => p.2.volatility_sq) results

/-- A summary record with a +20% total return (example data for reporting). -/
def sampleA : SummaryMetrics := ⟨some 20, some 1, none, none, none, 100, 100⟩

/-- A summary record with a -5% total return and the largest volatility. -/
def sampleB : SummaryMetrics := ⟨some (-5), some 9, none, none, none, 100, 100⟩

/-- A summary record with a +3% total return. -/
def sampleC : SummaryMetrics := ⟨some 3, some 4, none, none, none, 100, 100⟩

/-- Three tickers with total returns +20%, -5%, +3%, in input order. -/
def sampleResults : List (Ticker × SummaryMetrics) :=
  [(0, sampleA), (1, sampleB), (2, sampleC)]

/-! ### Basic shape lemmas -/

lemma definedVals_nil : definedVals [] = [] := rfl

lemma definedVals_cons_none (xs : List (Option ℚ)) :
    definedVals (none :: xs) = definedVals xs := by
  simp [definedVals]

lemma definedVals_cons_some (x : ℚ) (xs : List (Option ℚ)) :
    definedVals (some x :: xs) = x :: definedVals xs := by
  simp [definedVals]

lemma length_pctChangeGo : ∀ (xs : List ℚ) (prev : ℚ),
    (pctChangeGo prev xs).length = xs.length
  | [], _ => rfl
  | _ :: xs, _ => by simp [pctChangeGo, length_pctChangeGo xs]

lemma length_pctChange (closes : List ℚ) :
    (pctChange closes).length = closes.length := by
  cases closes with
  | nil => rfl
  | cons c rest => simp [pctChange, length_pctChangeGo]

lemma definedVals_pctChangeGo_length : ∀ (xs : List ℚ) (prev : ℚ),
    (definedVals (pctChangeGo prev xs)).length = xs.length
  | [], _ => rfl
  | x :: xs, prev => by
    simp [pctChangeGo, definedVals_cons_some, definedVals_pctChangeGo_length xs]

lemma definedVals_pctChange_cons (c : ℚ) (rest : List ℚ) :
    definedVals (pctChange (c :: rest)) = definedVals (pctChangeGo c rest) := by
  simp [pctChange, definedVals_cons_none]

lemma length_cumprodGo : ∀ (xs : List (Option ℚ)) (acc : ℚ),
    (cumprodGo acc xs).length = xs.length
  | [], _ => rfl
  | none :: xs, _ => by simp [cumprodGo, length_cumprodGo xs]
  | some _ :: xs, _ => by simp [cumprodGo, length_cumprodGo xs]

lemma length_cumulativeReturn (closes : List ℚ) :
    (cumulativeReturn closes).length = closes.length := by
  simp [cumulativeReturn, cumprodSkipna, growthFactors, length_cumprodGo, length_pctChange]

lemma getLastD_eq_getD {α : Type} (d : α) :
    ∀ (l : List α), l ≠ [] → l.getLastD d = l.getD (l.length - 1) d
  | [], h => absurd rfl h
  | [a], _ => rfl
  | a :: b :: t, _ => by
    have ih := getLastD_eq_getD d (b :: t) (by simp)
    simp only [List.getLastD_cons] at ih ⊢
    simpa [List.getD_cons_succ] using ih

/-! ### Claims C1 to C4 -/

/-- Claim C1, counterexample: for the series `[100, 110]` the summary's
`total_return` is `10` (a percentage) while the last entry of the
`Cumulative_Return` column is the fraction `1/10`, so the two are not equal as
the claim states. -/
theorem c1_cex :
    (calculateMetrics [100, 110]).map SummaryMetrics.total_return ≠
      some ((cumulativeReturn [100, 110]).getLastD none) := by
  have h1 : (calculateMetrics [100, 110]).map SummaryMetrics.total_return = some (some 10) := by
    norm_num [calculateMetrics, cumulativeReturn, cumprodSkipna, cumprodGo, growthFactors,
      pctChange, pctChangeGo]
  have h2 : (cumulativeReturn [100, 110]).getLastD none = some (1 / 10) := by
    norm_num [cumulativeReturn, cumprodSkipna, cumprodGo, growthFactors, pctChange, pctChangeGo]
  rw [h1, h2]
  norm_num

/-- Claim C1 (amended): the summary's `total_return` equals `100` times the
`Cumulative_Return` value of the last bar (the derived column stores a growth
fraction, not a percentage); both are NaN for a one-bar series. -/
theorem c1_thm (closes : List ℚ) (s : SummaryMetrics)
    (hs : calculateMetrics closes = some s) :
    s.total_return =
      ((cumulativeReturn closes).getD (closes.length - 1) none).map (fun v => v * 100) := by
  cases closes with
  | nil => simp [calculateMetrics] at hs
  | cons c rest =>
    simp only [calculateMetrics, Option.some.injEq] at hs
    subst hs
    have hne : cumulativeReturn (c :: rest) ≠ [] := by
      intro h
      have := length_cumulativeReturn (c :: rest)
      rw [h] at this
      simp at this
    rw [← length_cumulativeReturn (c :: rest)]
    rw [← getLastD_eq_getD none _ hne]

/-- Witness for C1: the amended identity evaluated on `[100, 110]`. -/
theorem c1_wit :
    (calculateMetrics [100, 110]).map SummaryMetrics.total_return =
      some (((cumulativeReturn [100, 110]).getD 1 none).map (fun v => v * 100)) := by
  have h : calculateMetrics [100, 110] =
      some ⟨some 10, none, some 10, some 10, some 10, 110, 100⟩ := by
    norm_num [calculateMetrics, cumulativeReturn, cumprodSkipna, cumprodGo, growthFactors,
      pctChange, pctChangeGo, seriesVarSq, seriesMean, seriesMax, seriesMin, definedVals,
      List.filterMap_cons, List.foldl]
  have h2 := c1_thm [100, 110] _ h
  rw [h]
  exact congrArg some h2

/-- Claim C2, counterexample: for the series `[100, 110]` the first entry of
the `Cumulative_Return` column is NaN (`none`), not `0`: `cumprod` keeps NaN at
the positions where `pct_change` produced NaN, and no `fillna(0)` is applied. -/
theorem c2_cex : (cumulativeReturn [100, 110]).getD 0 (some 0) = none := by
  rfl

/-- Claim C2 (amended): for every non-empty series the `Cumulative_Return`
value of the first bar is NaN (undefined), never `0`. -/
theorem c2_thm (closes : List ℚ) (h : closes ≠ []) :
    (cumulativeReturn closes).getD 0 (some 0) = none := by
  cases closes with
  | nil => exact absurd rfl h
  | cons c rest => rfl

/-- Witness for C2: the amended statement evaluated on `[5]`. -/
theorem c2_wit : ([(5 : ℚ)] ≠ []) ∧ (cumulativeReturn [5]).getD 0 (some 0) = none :=
  ⟨by simp, c2_thm [5] (by simp)⟩

/-- Claim C3, counterexample: the series `[100, -50]` contains a negative
close, yet `calculate_metrics` raises nothing and produces a summary record:
the source performs no close-price validation and has no `InvalidPriceData`
condition. -/
theorem c3_cex :
    ((-50 : ℚ) ∈ [(100 : ℚ), -50]) ∧ ((-50 : ℚ) < 0) ∧
      (calculateMetrics [100, -50]).isSome = true := by
  refine ⟨by simp, by norm_num, ?_⟩
  simp [calculateMetrics]

/-- Claim C3 (amended): the metrics computation validates nothing: every
non-empty series, including any with zero or negative closes, produces a
summary record and no failure. -/
theorem c3_thm (closes : List ℚ) (h : closes ≠ []) :
    (calculateMetrics closes).isSome = true := by
  cases closes with
  | nil => exact absurd rfl h
  | cons c rest => simp [calculateMetrics]

/-- Witness for C3: the amended statement evaluated on `[100, -50]`. -/
theorem c3_wit : ([(100 : ℚ), -50] ≠ []) ∧ (calculateMetrics [100, -50]).isSome = true :=
  ⟨by simp, c3_thm [100, -50] (by simp)⟩

/-- Claim C4, counterexample: for the one-bar series `[100]` the summary's
`total_return` is NaN (`cumprod` of the all-NaN daily-return column stays NaN
and `NaN * 100 = NaN`), not `0` as the claim states. -/
theorem c4_cex :
    (calculateMetrics [100]).map SummaryMetrics.total_return = some none ∧
      (calculateMetrics [100]).map SummaryMetrics.total_return ≠ some (some 0) := by
  constructor
  · rfl
  · intro h
    rw [show (calculateMetrics [100]).map SummaryMetrics.total_return = some none from rfl] at h
    simp at h

/-- Claim C4 (amended): for every one-bar series the set of defined daily
returns is empty and `volatility`, `avg_daily_return`, `best_day`, `worst_day`
AND `total_return` are all NaN (an explicit not-computable value, not zero);
`current_price` and `start_price` are the single close. -/
theorem c4_thm (c : ℚ) :
    calculateMetrics [c] = some ⟨none, none, none, none, none, c, c⟩ ∧
      definedVals (pctChange [c]) = [] := by
  constructor
  · rfl
  · rfl

/-! ### Closed form of the cumulative-return column -/

lemma getD_map_of_lt {α β : Type} (f : α → β) (d : β) (d' : α) :
    ∀ (l : List α) (i : ℕ), i < l.length → (l.map f).getD i d = f (l.getD i d')
  | [], i, h => absurd h (by simp)
  | _ :: _, 0, _ => rfl
  | _ :: l, i + 1, h => by
    simp only [List.map_cons, List.getD_cons_succ]
    exact getD_map_of_lt f d d' l i (by simpa using h)

lemma cumprodGo_pctChangeGo :
    ∀ (xs : List ℚ) (prev acc : ℚ), prev ≠ 0 → (∀ x ∈ xs, x ≠ 0) →
      cumprodGo acc ((pctChangeGo prev xs).map (Option.map (fun r => 1 + r / 100))) =
        xs.map (fun y => some (acc * (y / prev)))
  | [], _, _, _, _ => rfl
  | x :: xs, prev, acc, hprev, hxs => by
    have hx : x ≠ 0 := hxs x (List.mem_cons_self x xs)
    have hg : (1 : ℚ) + (x - prev) / prev * 100 / 100 = x / prev := by
      field_simp
      ring
    have ih := cumprodGo_pctChangeGo xs x (acc * (x / prev)) hx
      (fun y hy => hxs y (List.mem_cons_of_mem x hy))
    have hfun : (fun y => some (acc * (x / prev) * (y / x))) =
        (fun y : ℚ => some (acc * (y / prev))) := by
      funext y
      congr 1
      field_simp
      ring
    simp only [pctChangeGo, List.map_cons, Option.map_some', cumprodGo, hg]
    rw [ih, hfun]

/-- For a series of nonzero closes the daily growth factors telescope: the
`Cumulative_Return` column is NaN at the first bar and `close[i]/close[0] - 1`
at every later bar. -/
lemma cumulativeReturn_closed (c0 : ℚ) (rest : List ℚ) (h0 : c0 ≠ 0)
    (hr : ∀ x ∈ rest, x ≠ 0) :
    cumulativeReturn (c0 :: rest) = none :: rest.map (fun y => some (y / c0 - 1)) := by
  simp only [cumulativeReturn, cumprodSkipna, growthFactors, pctChange, List.map_cons,
    Option.map_none', cumprodGo]
  rw [cumprodGo_pctChangeGo rest c0 1 h0 hr]
  simp only [List.map_cons, Option.map_none', List.map_map, Function.comp_def, Option.map_some',
    one_mul]

/-! ### Claim C5 -/

/-- Claim C5, counterexample: for the all-positive series `[50, 60]` the
`Cumulative_Return` value at index `0` is NaN, so the claimed round trip
`close[0] * (1 + cum[0]/100) = close[0]` fails at index `0`: there is no
defined value there at all. -/
theorem c5_cex : ((cumulativeReturn [50, 60]).getD 0 none).isSome = false := by
  rfl

/-- Claim C5 (amended): for every series of positive closes and every index
`i ≥ 1`, the `Cumulative_Return` value at `i` is defined and reconstructs
`close[i]` exactly: `close[0] * (1 + (100 * cum[i])/100) = close[i]` (the
stored fraction `cum[i]` corresponds to the percentage `100 * cum[i]`).  At
index `0` the column is NaN (see C2), so the round trip only holds from index
`1` on. -/
theorem c5_thm (closes : List ℚ) (hpos : ∀ x ∈ closes, 0 < x) (i : ℕ)
    (h1 : 1 ≤ i) (hi : i < closes.length) :
    ∃ v, (cumulativeReturn closes).getD i none = some v ∧
      closes.getD 0 0 * (1 + v * 100 / 100) = closes.getD i 0 := by
  cases closes with
  | nil => simp at hi
  | cons c0 rest =>
    have hc0 : c0 ≠ 0 := (hpos c0 (List.mem_cons_self c0 rest)).ne'
    have hr : ∀ x ∈ rest, x ≠ 0 :=
      fun x hx => (hpos x (List.mem_cons_of_mem c0 hx)).ne'
    cases i with
    | zero => exact absurd h1 (by norm_num)
    | succ j =>
      have hj : j < rest.length := by simpa using hi
      refine ⟨rest.getD j 0 / c0 - 1, ?_, ?_⟩
      · rw [cumulativeReturn_closed c0 rest hc0 hr]
        simp only [List.getD_cons_succ]
        exact getD_map_of_lt _ none 0 rest j hj
      · simp only [List.getD_cons_zero, List.getD_cons_succ]
        field_simp
        ring

/-- Witness for C5: the amended round trip evaluated on `[100, 110]` at
index `1`. -/
theorem c5_wit :
    ∃ v, (cumulativeReturn [100, 110]).getD 1 none = some v ∧
      (100 : ℚ) * (1 + v * 100 / 100) = (110 : ℚ) := by
  have h := c5_thm [100, 110] (by norm_num) 1 (le_refl 1) (by simp)
  simpa using h

/-! ### Fold lemmas for the skipna reductions -/

lemma foldl_max_mem : ∀ (vs : List ℚ) (v : ℚ), vs.foldl max v ∈ v :: vs
  | [], v => List.mem_cons_self v []
  | x :: xs, v => by
    have h := foldl_max_mem xs (max v x)
    simp only [List.foldl_cons]
    rcases List.mem_cons.mp h with h1 | h1
    · rcases max_choice v x with h2 | h2 <;> rw [h1, h2] <;> simp
    · simp [h1]

lemma le_foldl_max : ∀ (vs : List ℚ) (v : ℚ), v ≤ vs.foldl max v
  | [], _ => le_refl _
  | x :: xs, v => le_trans (le_max_left v x) (le_foldl_max xs (max v x))

lemma foldl_max_le_all : ∀ (vs : List ℚ) (v : ℚ), ∀ x ∈ vs, x ≤ vs.foldl max v
  | [], _, _, hx => absurd hx (by simp)
  | y :: ys, v, x, hx => by
    simp only [List.foldl_cons]
    rcases List.mem_cons.mp hx with h1 | h1
    · subst h1
      exact le_trans (le_max_right v x) (le_foldl_max ys (max v x))
    · exact foldl_max_le_all ys (max v y) x h1

lemma foldl_min_mem : ∀ (vs : List ℚ) (v : ℚ), vs.foldl min v ∈ v :: vs
  | [], v => List.mem_cons_self v []
  | x :: xs, v => by
    have h := foldl_min_mem xs (min v x)
    simp only [List.foldl_cons]
    rcases List.mem_cons.mp h with h1 | h1
    · rcases min_choice v x with h2 | h2 <;> rw [h1, h2] <;> simp
    · simp [h1]

lemma foldl_min_le : ∀ (vs : List ℚ) (v : ℚ), vs.foldl min v ≤ v
  | [], _ => le_refl _
  | x :: xs, v => le_trans (foldl_min_le xs (min v x)) (min_le_left v x)

lemma foldl_min_le_all : ∀ (vs : List ℚ) (v : ℚ), ∀ x ∈ vs, vs.foldl min v ≤ x
  | [], _, _, hx => absurd hx (by simp)
  | y :: ys, v, x, hx => by
    simp only [List.foldl_cons]
    rcases List.mem_cons.mp hx with h1 | h1
    · subst h1
      exact le_trans (foldl_min_le ys (min v x)) (min_le_right v x)
    · exact foldl_min_le_all ys (min v y) x h1

/-- `seriesMax` of a column with at least one defined value is a defined value
of the column and bounds every defined value from above. -/
lemma seriesMax_spec (xs : List (Option ℚ)) (hne : definedVals xs ≠ []) :
    ∃ m, seriesMax xs = some m ∧ m ∈ definedVals xs ∧ ∀ x ∈ definedVals xs, x ≤ m := by
  rcases h : definedVals xs with - | ⟨v, vs⟩
  · exact absurd h hne
  · refine ⟨vs.foldl max v, ?_, ?_, ?_⟩
    · simp [seriesMax, h]
    · exact foldl_max_mem vs v
    · intro x hx
      rcases List.mem_cons.mp hx with h1 | h1
      · subst h1
        exact le_foldl_max vs x
      · exact foldl_max_le_all vs v x h1

/-- `seriesMin` of a column with at least one defined value is a defined value
of the column and bounds every defined value from below. -/
lemma seriesMin_spec (xs : List (Option ℚ)) (hne : definedVals xs ≠ []) :
    ∃ m, seriesMin xs = some m ∧ m ∈ definedVals xs ∧ ∀ x ∈ definedVals xs, m ≤ x := by
  rcases h : definedVals xs with - | ⟨v, vs⟩
  · exact absurd h hne
  · refine ⟨vs.foldl min v, ?_, ?_, ?_⟩
    · simp [seriesMin, h]
    · exact foldl_min_mem vs v
    · intro x hx
      rcases List.mem_cons.mp hx with h1 | h1
      · subst h1
        exact foldl_min_le vs x
      · exact foldl_min_le_all vs v x h1

/-! ### Claims C6 and C10 -/

/-- Claim C6: for a series with at least two bars, `best_day`/`worst_day` are
the max/min of the defined daily returns, `avg_daily_return` is their mean,
the volatility is the sample (N-1) dispersion of that set (undefined when only
one value is defined, as for a two-bar series), `start_price` is the first
close and `current_price` the last. -/
theorem c6_thm (closes : List ℚ) (s : SummaryMetrics)
    (hs : calculateMetrics closes = some s) (h2 : 2 ≤ closes.length) :
    (∃ m, s.best_day = some m ∧ m ∈ definedVals (pctChange closes) ∧
        ∀ x ∈ definedVals (pctChange closes), x ≤ m) ∧
      (∃ m, s.worst_day = some m ∧ m ∈ definedVals (pctChange closes) ∧
        ∀ x ∈ definedVals (pctChange closes), m ≤ x) ∧
      s.avg_daily_return =
        some ((definedVals (pctChange closes)).sum /
          ((definedVals (pctChange closes)).length : ℚ)) ∧
      (2 ≤ (definedVals (pctChange closes)).length →
        s.volatility_sq = some (((definedVals (pctChange closes)).map
          (fun x => (x - (definedVals (pctChange closes)).sum /
            ((definedVals (pctChange closes)).length : ℚ)) ^ 2)).sum /
              (((definedVals (pctChange closes)).length : ℚ) - 1))) ∧
      ((definedVals (pctChange closes)).length < 2 → s.volatility_sq = none) ∧
      s.start_price = closes.getD 0 0 ∧
      s.current_price = closes.getLastD 0 := by
  cases closes with
  | nil => simp at h2
  | cons c0 rest =>
    simp only [calculateMetrics, Option.some.injEq] at hs
    subst hs
    have h1 : 1 ≤ rest.length := by
      simp only [List.length_cons] at h2
      omega
    have hlen : (definedVals (pctChange (c0 :: rest))).length = rest.length := by
      rw [definedVals_pctChange_cons]
      exact definedVals_pctChangeGo_length rest c0
    have hne : definedVals (pctChange (c0 :: rest)) ≠ [] := by
      intro h
      rw [h] at hlen
      simp only [List.length_nil] at hlen
      omega
    refine ⟨seriesMax_spec _ hne, seriesMin_spec _ hne, ?_, ?_, ?_, rfl, rfl⟩
    · simp [seriesMean, hne]
    · intro hlen2
      simp [seriesVarSq, Nat.not_lt.mpr hlen2]
    · intro hlen2
      simp [seriesVarSq, hlen2]

/-- Witness for C6: the mean of the defined daily returns of `[100, 110, 99]`
is the stored `avg_daily_return`. -/
theorem c6_wit :
    (calculateMetrics [100, 110, 99]).map SummaryMetrics.avg_daily_return =
      some (some ((definedVals (pctChange [100, 110, 99])).sum /
        ((definedVals (pctChange [100, 110, 99])).length : ℚ))) := by
  have h : calculateMetrics [100, 110, 99] =
      some ⟨some (-1), some 200, some 0, some 10, some (-10), 99, 100⟩ := by
    norm_num [calculateMetrics, cumulativeReturn, cumprodSkipna, cumprodGo, growthFactors,
      pctChange, pctChangeGo, seriesVarSq, seriesMean, seriesMax, seriesMin, definedVals,
      List.filterMap_cons, List.foldl] <;> simp
  have h2 := (c6_thm [100, 110, 99] _ h (by norm_num)).2.2.1
  rw [h]
  exact congrArg some h2

/-- Claim C10: for a series with at least two bars of positive closes, the
mean daily return lies between the worst and the best daily return. -/
theorem c10_thm (closes : List ℚ) (s : SummaryMetrics)
    (hs : calculateMetrics closes = some s) (h2 : 2 ≤ closes.length)
    (_hpos : ∀ c ∈ closes, 0 < c) :
    ∃ w a b, s.worst_day = some w ∧ s.avg_daily_return = some a ∧ s.best_day = some b ∧
      w ≤ a ∧ a ≤ b := by
  cases closes with
  | nil => simp at h2
  | cons c0 rest =>
    simp only [calculateMetrics, Option.some.injEq] at hs
    subst hs
    have h1 : 1 ≤ rest.length := by
      simp only [List.length_cons] at h2
      omega
    have hlen : (definedVals (pctChange (c0 :: rest))).length = rest.length := by
      rw [definedVals_pctChange_cons]
      exact definedVals_pctChangeGo_length rest c0
    have hne : definedVals (pctChange (c0 :: rest)) ≠ [] := by
      intro h
      rw [h] at hlen
      simp only [List.length_nil] at hlen
      omega
    obtain ⟨b, hb, -, hble⟩ := seriesMax_spec (pctChange (c0 :: rest)) hne
    obtain ⟨w, hw, -, hwle⟩ := seriesMin_spec (pctChange (c0 :: rest)) hne
    have hlpos : (0 : ℚ) < ((definedVals (pctChange (c0 :: rest))).length : ℚ) := by
      have := List.length_pos.mpr hne
      exact_mod_cast this
    refine ⟨w, (definedVals (pctChange (c0 :: rest))).sum /
      ((definedVals (pctChange (c0 :: rest))).length : ℚ), b, hw, ?_, hb, ?_, ?_⟩
    · simp [seriesMean, hne]
    · rw [le_div_iff₀ hlpos]
      have hsum := List.card_nsmul_le_sum (definedVals (pctChange (c0 :: rest))) w hwle
      rw [nsmul_eq_mul] at hsum
      linarith
    · rw [div_le_iff₀ hlpos]
      have hsum := List.sum_le_card_nsmul (definedVals (pctChange (c0 :: rest))) b hble
      rw [nsmul_eq_mul] at hsum
      linarith

/-- Witness for C10: the bounds evaluated on `[100, 110, 99]`, whose summary
record has worst day `-10`, mean `0` and best day `10`. -/
theorem c10_wit :
    ∃ w a b,
      (⟨some (-1), some 200, some 0, some 10, some (-10), 99, 100⟩ :
        SummaryMetrics).worst_day = some w ∧
      (⟨some (-1), some 200, some 0, some 10, some (-10), 99, 100⟩ :
        SummaryMetrics).avg_daily_return = some a ∧
      (⟨some (-1), some 200, some 0, some 10, some (-10), 99, 100⟩ :
        SummaryMetrics).best_day = some b ∧
      w ≤ a ∧ a ≤ b := by
  have h : calculateMetrics [100, 110, 99] =
      some ⟨some (-1), some 200, some 0, some 10, some (-10), 99, 100⟩ := by
    norm_num [calculateMetrics, cumulativeReturn, cumprodSkipna, cumprodGo, growthFactors,
      pctChange, pctChangeGo, seriesVarSq, seriesMean, seriesMax, seriesMin, definedVals,
      List.filterMap_cons, List.foldl] <;> simp
  exact c10_thm [100, 110, 99] _ h (by norm_num) (by norm_num)

/-! ### Claim C7 -/

lemma getD_range_of_lt (n i : ℕ) (h : i < n) : (List.range n).getD i 0 = i := by
  rw [List.getD_eq_getElem?_getD, List.getElem?_range h]
  rfl

lemma rollingMean_getD (w : ℕ) (closes : List ℚ) (i : ℕ) (hi : i < closes.length) :
    (rollingMean w closes).getD i none =
      if w ≤ i + 1 then some (((closes.drop (i + 1 - w)).take w).sum / (w : ℚ)) else none := by
  have h1 : i < (List.range closes.length).length := by simpa using hi
  rw [rollingMean, getD_map_of_lt _ none 0 (List.range closes.length) i h1,
    getD_range_of_lt closes.length i hi]

lemma rollingMean_window (w : ℕ) (closes : List ℚ) (i : ℕ) (hi : i < closes.length) :
    (((rollingMean w closes).getD i none).isSome = true ↔ w ≤ i + 1) ∧
      (w ≤ i + 1 → ((closes.drop (i + 1 - w)).take w).length = w ∧
        (rollingMean w closes).getD i none =
          some (((closes.drop (i + 1 - w)).take w).sum / (w : ℚ))) := by
  rw [rollingMean_getD w closes i hi]
  by_cases hc : w ≤ i + 1
  · refine ⟨by simp [hc], fun _ => ⟨?_, by simp [hc]⟩⟩
    simp only [List.length_take, List.length_drop]
    omega
  · refine ⟨by simp [hc], fun h => absurd h hc⟩

/-- Claim C7: the 50-day column has the length of the series, entry `i` is
defined iff `i ≥ 49` and then equals the arithmetic mean of the window
`close[i-49..i]` (a window of exactly 50 closes); analogously for the 200-day
column; a series shorter than the window therefore has every entry undefined,
with no error. -/
theorem c7_thm (closes : List ℚ) (i : ℕ) (hi : i < closes.length) :
    (rollingMean 50 closes).length = closes.length ∧
      (((rollingMean 50 closes).getD i none).isSome = true ↔ 49 ≤ i) ∧
      (49 ≤ i → ((closes.drop (i - 49)).take 50).length = 50 ∧
        (rollingMean 50 closes).getD i none =
          some (((closes.drop (i - 49)).take 50).sum / (50 : ℚ))) ∧
      (((rollingMean 200 closes).getD i none).isSome = true ↔ 199 ≤ i) ∧
      (199 ≤ i → ((closes.drop (i - 199)).take 200).length = 200 ∧
        (rollingMean 200 closes).getD i none =
          some (((closes.drop (i - 199)).take 200).sum / (200 : ℚ))) := by
  obtain ⟨h50iff, h50val⟩ := rollingMean_window 50 closes i hi
  obtain ⟨h200iff, h200val⟩ := rollingMean_window 200 closes i hi
  have e50 : i + 1 - 50 = i - 49 := by omega
  have e200 : i + 1 - 200 = i - 199 := by omega
  rw [e50] at h50val
  rw [e200] at h200val
  refine ⟨by simp [rollingMean], ?_, ?_, ?_, ?_⟩
  · rw [h50iff]
    omega
  · intro h
    exact h50val (by omega)
  · rw [h200iff]
    omega
  · intro h
    exact h200val (by omega)

/-- Witness for C7: on a 200-bar constant series of closes `1`, both moving
averages are defined at the last index and equal `1`. -/
theorem c7_wit :
    (rollingMean 50 (List.replicate 200 (1 : ℚ))).getD 199 none = some 1 ∧
      (rollingMean 200 (List.replicate 200 (1 : ℚ))).getD 199 none = some 1 := by
  have h := c7_thm (List.replicate 200 (1 : ℚ)) 199 (by rw [List.length_replicate]; omega)
  constructor
  · have hv := (h.2.2.1 (by norm_num)).2
    rw [hv]
    norm_num [List.drop_replicate, List.take_replicate, List.sum_replicate, nsmul_eq_mul]
  · have hv := (h.2.2.2.2 (by norm_num)).2
    rw [hv]
    norm_num [List.drop_replicate, List.take_replicate, List.sum_replicate, nsmul_eq_mul]

/-! ### Claim C8: the reporting selection -/

lemma pyMaxGo_spec {α : Type} (key : α → Option ℚ) (l : List α) :
    ∀ a : α, (∀ x ∈ l, (key x).isSome = true) → (key a).isSome = true →
      (l.foldl (pyMaxStep key) (some a) = some a ∧
        ∀ x ∈ l, (key x).getD 0 ≤ (key a).getD 0) ∨
      (∃ b l1 l2, l.foldl (pyMaxStep key) (some a) = some b ∧ l = l1 ++ b :: l2 ∧
        (key a).getD 0 < (key b).getD 0 ∧
        (∀ x ∈ l, (key x).getD 0 ≤ (key b).getD 0) ∧
        (∀ x ∈ l1, (key x).getD 0 < (key b).getD 0)) := by
  induction l with
  | nil =>
    intro a _ _
    exact Or.inl ⟨rfl, by simp⟩
  | cons x xs ih =>
    intro a hk hka
    obtain ⟨ka, hkaeq⟩ := Option.isSome_iff_exists.mp hka
    obtain ⟨kx, hkxeq⟩ := Option.isSome_iff_exists.mp (hk x (List.mem_cons_self x xs))
    have hkxs : ∀ y ∈ xs, (key y).isSome = true :=
      fun y hy => hk y (List.mem_cons_of_mem x hy)
    simp only [List.foldl_cons]
    by_cases hlt : ka < kx
    · have hstep : pyMaxStep key (some a) x = some x := by
        simp [pyMaxStep, hkaeq, hkxeq, hlt]
      rw [hstep]
      have haltx : (key a).getD 0 < (key x).getD 0 := by
        rw [hkaeq, hkxeq]
        simpa using hlt
      rcases ih x hkxs (by simp [hkxeq]) with ⟨hf, hb⟩ |
        ⟨b, l1, l2, hf, hdec, hlt2, hbound, hstrict⟩
      · right
        refine ⟨x, [], xs, hf, rfl, haltx, ?_, by simp⟩
        intro y hy
        rcases List.mem_cons.mp hy with h1 | h1
        · subst h1
          exact le_refl _
        · exact hb y h1
      · right
        refine ⟨b, x :: l1, l2, hf, by simp [hdec], lt_trans haltx hlt2, ?_, ?_⟩
        · intro y hy
          rcases List.mem_cons.mp hy with h1 | h1
          · subst h1
            exact le_of_lt hlt2
          · exact hbound y h1
        · intro y hy
          rcases List.mem_cons.mp hy with h1 | h1
          · subst h1
            exact hlt2
          · exact hstrict y h1
    · have hstep : pyMaxStep key (some a) x = some a := by
        simp [pyMaxStep, hkaeq, hkxeq, hlt]
      rw [hstep]
      have hxlea : (key x).getD 0 ≤ (key a).getD 0 := by
        rw [hkaeq, hkxeq]
        simpa using not_lt.mp hlt
      rcases ih a hkxs hka with ⟨hf, hb⟩ |
        ⟨b, l1, l2, hf, hdec, hlt2, hbound, hstrict⟩
      · left
        refine ⟨hf, ?_⟩
        intro y hy
        rcases List.mem_cons.mp hy with h1 | h1
        · subst h1
          exact hxlea
        · exact hb y h1
      · right
        refine ⟨b, x :: l1, l2, hf, by simp [hdec], hlt2, ?_, ?_⟩
        · intro y hy
          rcases List.mem_cons.mp hy with h1 | h1
          · subst h1
            exact le_of_lt (lt_of_le_of_lt hxlea hlt2)
          · exact hbound y h1
        · intro y hy
          rcases List.mem_cons.mp hy with h1 | h1
          · subst h1
            exact lt_of_le_of_lt hxlea hlt2
          · exact hstrict y h1

/-- Python `max(..., key)` over defined keys returns the first element whose
key attains the maximum. -/
lemma pyMaxBy_spec {α : Type} (key : α → Option ℚ) (l : List α) (hne : l ≠ [])
    (hk : ∀ x ∈ l, (key x).isSome = true) :
    ∃ b l1 l2, pyMaxBy key l = some b ∧ l = l1 ++ b :: l2 ∧
      (∀ x ∈ l, (key x).getD 0 ≤ (key b).getD 0) ∧
      (∀ x ∈ l1, (key x).getD 0 < (key b).getD 0) := by
  cases l with
  | nil => exact absurd rfl hne
  | cons h t =>
    have hk' : ∀ x ∈ t, (key x).isSome = true :=
      fun x hx => hk x (List.mem_cons_of_mem h hx)
    rcases pyMaxGo_spec key t h hk' (hk h (List.mem_cons_self h t)) with ⟨hf, hb⟩ |
      ⟨b, l1, l2, hf, hdec, hlt, hbound, hstrict⟩
    · refine ⟨h, [], t, ?_, rfl, ?_, by simp⟩
      · rw [pyMaxBy, List.foldl_cons]
        exact hf
      · intro y hy
        rcases List.mem_cons.mp hy with h1 | h1
        · subst h1
          exact le_refl _
        · exact hb y h1
    · refine ⟨b, h :: l1, l2, ?_, by simp [hdec], ?_, ?_⟩
      · rw [pyMaxBy, List.foldl_cons]
        exact hf
      · intro y hy
        rcases List.mem_cons.mp hy with h1 | h1
        · subst h1
          exact le_of_lt hlt
        · exact hbound y h1
      · intro y hy
        rcases List.mem_cons.mp hy with h1 | h1
        · subst h1
          exact hlt
        · exact hstrict y h1

lemma pyMinGo_spec {α : Type} (key : α → Option ℚ) (l : List α) :
    ∀ a : α, (∀ x ∈ l, (key x).isSome = true) → (key a).isSome = true →
      (l.foldl (pyMinStep key) (some a) = some a ∧
        ∀ x ∈ l, (key a).getD 0 ≤ (key x).getD 0) ∨
      (∃ b l1 l2, l.foldl (pyMinStep key) (some a) = some b ∧ l = l1 ++ b :: l2 ∧
        (key b).getD 0 < (key a).getD 0 ∧
        (∀ x ∈ l, (key b).getD 0 ≤ (key x).getD 0) ∧
        (∀ x ∈ l1, (key b).getD 0 < (key x).getD 0)) := by
  induction l with
  | nil =>
    intro a _ _
    exact Or.inl ⟨rfl, by simp⟩
  | cons x xs ih =>
    intro a hk hka
    obtain ⟨ka, hkaeq⟩ := Option.isSome_iff_exists.mp hka
    obtain ⟨kx, hkxeq⟩ := Option.isSome_iff_exists.mp (hk x (List.mem_cons_self x xs))
    have hkxs : ∀ y ∈ xs, (key y).isSome = true :=
      fun y hy => hk y (List.mem_cons_of_mem x hy)
    simp only [List.foldl_cons]
    by_cases hlt : kx < ka
    · have hstep : pyMinStep key (some a) x = some x := by
        simp [pyMinStep, hkaeq, hkxeq, hlt]
      rw [hstep]
      have hxlta : (key x).getD 0 < (key a).getD 0 := by
        rw [hkaeq, hkxeq]
        simpa using hlt
      rcases ih x hkxs (by simp [hkxeq]) with ⟨hf, hb⟩ |
        ⟨b, l1, l2, hf, hdec, hlt2, hbound, hstrict⟩
      · right
        refine ⟨x, [], xs, hf, rfl, hxlta, ?_, by simp⟩
        intro y hy
        rcases List.mem_cons.mp hy with h1 | h1
        · subst h1
          exact le_refl _
        · exact hb y h1
      · right
        refine ⟨b, x :: l1, l2, hf, by simp [hdec], lt_trans hlt2 hxlta, ?_, ?_⟩
        · intro y hy
          rcases List.mem_cons.mp hy with h1 | h1
          · subst h1
            exact le_of_lt hlt2
          · exact hbound y h1
        · intro y hy
          rcases List.mem_cons.mp hy with h1 | h1
          · subst h1
            exact hlt2
          · exact hstrict y h1
    · have hstep : pyMinStep key (some a) x = some a := by
        simp [pyMinStep, hkaeq, hkxeq, hlt]
      rw [hstep]
      have halex : (key a).getD 0 ≤ (key x).getD 0 := by
        rw [hkaeq, hkxeq]
        simpa using not_lt.mp hlt
      rcases ih a hkxs hka with ⟨hf, hb⟩ |
        ⟨b, l1, l2, hf, hdec, hlt2, hbound, hstrict⟩
      · left
        refine ⟨hf, ?_⟩
        intro y hy
        rcases List.mem_cons.mp hy with h1 | h1
        · subst h1
          exact halex
        · exact hb y h1
      · right
        refine ⟨b, x :: l1, l2, hf, by simp [hdec], hlt2, ?_, ?_⟩
        · intro y hy
          rcases List.mem_cons.mp hy with h1 | h1
          · subst h1
            exact le_of_lt (lt_of_lt_of_le hlt2 halex)
          · exact hbound y h1
        · intro y hy
          rcases List.mem_cons.mp hy with h1 | h1
          · subst h1
            exact lt_of_lt_of_le hlt2 halex
          · exact hstrict y h1

/-- Python `min(..., key)` over defined keys returns the first element whose
key attains the minimum. -/
lemma pyMinBy_spec {α : Type} (key : α → Option ℚ) (l : List α) (hne : l ≠ [])
    (hk : ∀ x ∈ l, (key x).isSome = true) :
    ∃ b l1 l2, pyMinBy key l = some b ∧ l = l1 ++ b :: l2 ∧
      (∀ x ∈ l, (key b).getD 0 ≤ (key x).getD 0) ∧
      (∀ x ∈ l1, (key b).getD 0 < (key x).getD 0) := by
  cases l with
  | nil => exact absurd rfl hne
  | cons h t =>
    have hk' : ∀ x ∈ t, (key x).isSome = true :=
      fun x hx => hk x (List.mem_cons_of_mem h hx)
    rcases pyMinGo_spec key t h hk' (hk h (List.mem_cons_self h t)) with ⟨hf, hb⟩ |
      ⟨b, l1, l2, hf, hdec, hlt, hbound, hstrict⟩
    · refine ⟨h, [], t, ?_, rfl, ?_, by simp⟩
      · rw [pyMinBy, List.foldl_cons]
        exact hf
      · intro y hy
        rcases List.mem_cons.mp hy with h1 | h1
        · subst h1
          exact le_refl _
        · exact hb y h1
    · refine ⟨b, h :: l1, l2, ?_, by simp [hdec], ?_, ?_⟩
      · rw [pyMinBy, List.foldl_cons]
        exact hf
      · intro y hy
        rcases List.mem_cons.mp hy with h1 | h1
        · subst h1
          exact le_of_lt hlt
        · exact hbound y h1
      · intro y hy
        rcases List.mem_cons.mp hy with h1 | h1
        · subst h1
          exact hlt
        · exact hstrict y h1

/-- Claim C8: over a non-empty result set whose `total_return` and
`volatility` values are all defined, `print_summary` picks as best performer
the first ticker attaining the maximum total return, as worst performer the
first ticker attaining the minimum total return, and as most volatile the
first ticker attaining the maximum volatility (Python `max`/`min` keep the
incumbent on ties, so the first in input order wins). -/
theorem c8_thm (rs : List (Ticker × SummaryMetrics)) (hne : rs ≠ [])
    (hr : ∀ p ∈ rs, (p.2.total_return).isSome = true)
    (hv : ∀ p ∈ rs, (p.2.volatility_sq).isSome = true) :
    (∃ b l1 l2, bestPerformer rs = some b ∧ rs = l1 ++ b :: l2 ∧
      (∀ p ∈ rs, (p.2.total_return).getD 0 ≤ (b.2.total_return).getD 0) ∧
      (∀ p ∈ l1, (p.2.total_return).getD 0 < (b.2.total_return).getD 0)) ∧
    (∃ b l1 l2, worstPerformer rs = some b ∧ rs = l1 ++ b :: l2 ∧
      (∀ p ∈ rs, (b.2.total_return).getD 0 ≤ (p.2.total_return).getD 0) ∧
      (∀ p ∈ l1, (b.2.total_return).getD 0 < (p.2.total_return).getD 0)) ∧
    (∃ b l1 l2, mostVolatile rs = some b ∧ rs = l1 ++ b :: l2 ∧
      (∀ p ∈ rs, (p.2.volatility_sq).getD 0 ≤ (b.2.volatility_sq).getD 0) ∧
      (∀ p ∈ l1, (p.2.volatility_sq).getD 0 < (b.2.volatility_sq).getD 0)) :=
  ⟨pyMaxBy_spec _ rs hne hr, pyMinBy_spec _ rs hne hr, pyMaxBy_spec _ rs hne hv⟩

/-- Witness for C8: the selection property evaluated on three tickers with
total returns +20%, -5%, +3% and volatilities 1, 9, 4. -/
theorem c8_wit :
    (∃ b l1 l2, bestPerformer sampleResults = some b ∧ sampleResults = l1 ++ b :: l2 ∧
      (∀ p ∈ sampleResults, (p.2.total_return).getD 0 ≤ (b.2.total_return).getD 0) ∧
      (∀ p ∈ l1, (p.2.total_return).getD 0 < (b.2.total_return).getD 0)) ∧
    (∃ b l1 l2, worstPerformer sampleResults = some b ∧ sampleResults = l1 ++ b :: l2 ∧
      (∀ p ∈ sampleResults, (b.2.total_return).getD 0 ≤ (p.2.total_return).getD 0) ∧
      (∀ p ∈ l1, (b.2.total_return).getD 0 < (p.2.total_return).getD 0)) ∧
    (∃ b l1 l2, mostVolatile sampleResults = some b ∧ sampleResults = l1 ++ b :: l2 ∧
      (∀ p ∈ sampleResults, (p.2.volatility_sq).getD 0 ≤ (b.2.volatility_sq).getD 0) ∧
      (∀ p ∈ l1, (p.2.volatility_sq).getD 0 < (b.2.volatility_sq).getD 0)) :=
  c8_thm sampleResults (by simp [sampleResults])
    (by simp [sampleResults, sampleA, sampleB, sampleC])
    (by simp [sampleResults, sampleA, sampleB, sampleC])

/-! ### Claim C9 -/

/-- Claim C9: a ticker whose download yields an empty series is never inserted
into the store (`if not data.empty`) and therefore never yields a summary
record: it is absent from the result set, not defaulted. -/
theorem c9_thm (download : Ticker → Option (List ℚ)) (tickers : List Ticker)
    (t : Ticker) (h : download t = some []) :
    t ∉ (fetchData download tickers).map Prod.fst ∧
      t ∉ (analysisResults (fetchData download tickers)).map Prod.fst := by
  have hmain : t ∉ (fetchData download tickers).map Prod.fst := by
    intro hmem
    obtain ⟨p, hp, hpt⟩ := List.mem_map.mp hmem
    obtain ⟨t', ht', hf⟩ := List.mem_filterMap.mp hp
    rcases hd : download t' with - | d
    · rw [hd] at hf
      simp at hf
    · rcases d with - | ⟨c, cs⟩
      · rw [hd] at hf
        simp at hf
      · rw [hd] at hf
        simp only [Option.some.injEq] at hf
        have htt : t' = t := by
          rw [← hf] at hpt
          exact hpt
        rw [htt, h] at hd
        simp at hd
  refine ⟨hmain, ?_⟩
  intro hmem
  obtain ⟨q, hq, hqt⟩ := List.mem_map.mp hmem
  obtain ⟨p, hp, hf⟩ := List.mem_filterMap.mp hq
  rcases ho : calculateMetrics p.2 with - | s
  · rw [ho] at hf
    simp at hf
  · rw [ho] at hf
    simp only [Option.map_some', Option.some.injEq] at hf
    apply hmain
    refine List.mem_map.mpr ⟨p, hp, ?_⟩
    rw [← hf] at hqt
    exact hqt

/-- Witness for C9: with a download that returns an empty series for every
ticker, ticker `0` appears neither in the store nor in the result set. -/
theorem c9_wit :
    (0 : Ticker) ∉ (fetchData (fun _ => some []) [0, 1]).map Prod.fst ∧
      (0 : Ticker) ∉ (analysisResults (fetchData (fun _ => some []) [0, 1])).map Prod.fst :=
  c9_thm (fun _ => some []) [0, 1] 0 rfl
